import Mathlib

set_option autoImplicit false

/-!
Shallow embedding of `src/read/pe/delay_load_import.rs` from the
`boreal-object` repository: the delay-load import table parser for PE
binaries. The byte-buffer primitives (`Bytes`), the raw descriptor record
(`ImageDelayloadDescriptor`) and the thunk word (`ImageThunkData`) live in
other files of the repository and are modelled from the specification;
every definition modelled that way says so in its doc comment. Machine
integers are `Nat` with explicit reduction modulo `2^32` where the source
uses wraparound arithmetic; fallible reads return `Option`, and the
public operations return `Except String` carrying the source's error
message strings.
-/

/-- Modelled from the spec: width of the 32-bit address space; addresses are
unsigned 32-bit values and address arithmetic is modulo this constant. -/
def U32_MOD : Nat := 4294967296

/-- Modelled from the spec: wraparound (modular) unsigned 32-bit subtraction
(`u32::wrapping_sub`), as used for every address-to-offset translation. -/
def wrapping_sub (a b : Nat) : Nat :=
  (a % U32_MOD + (U32_MOD - b % U32_MOD)) % U32_MOD

/-- Modelled from the spec: `Bytes`, a read-only view of the section byte
buffer; the repository defines it outside the file under verification. -/
structure Bytes where
  data : List Nat
deriving Repr, DecidableEq

/-- Length in bytes of the remaining buffer view. -/
def Bytes.len (b : Bytes) : Nat := b.data.length

/-- Modelled from the spec: `Bytes::skip` advances past `offset` bytes and
fails exactly when the offset exceeds the remaining length. -/
def Bytes.skip (b : Bytes) (offset : Nat) : Option Bytes :=
  if offset ≤ b.data.length then some ⟨b.data.drop offset⟩ else none

/-- Modelled from the spec: `Bytes::read_bytes` splits off the first `count`
bytes, failing when fewer bytes remain. -/
def Bytes.read_bytes (b : Bytes) (count : Nat) : Option (List Nat × Bytes) :=
  if count ≤ b.data.length then some (b.data.take count, ⟨b.data.drop count⟩) else none

/-- Modelled from the spec: scan forward for a terminating zero byte,
returning the bytes strictly before it and the remainder strictly after it,
or nothing when no zero byte occurs. -/
def readStringAux : List Nat → Option (List Nat × List Nat)
  | [] => none
  | b :: rest =>
    if b = 0 then some ([], rest)
    else (readStringAux rest).map (fun p => (b :: p.1, p.2))

/-- Modelled from the spec: `Bytes::read_string` reads a null-terminated
string at the cursor, failing when no terminator occurs before the end. -/
def Bytes.read_string (b : Bytes) : Option (List Nat × Bytes) :=
  (readStringAux b.data).map (fun p => (p.1, ⟨p.2⟩))

/-- Modelled from the spec: `Bytes::read_string_at` skips to `offset` and
reads a null-terminated string there. -/
def Bytes.read_string_at (b : Bytes) (offset : Nat) : Option (List Nat) :=
  (b.skip offset).bind (fun d => d.read_string.map (fun p => p.1))

/-- Modelled from the spec: `read_error` turns a failed read into the typed
parse error carrying a human-readable cause string. -/
def read_error {α : Type} (o : Option α) (msg : String) : Except String α :=
  match o with
  | some a => Except.ok a
  | none => Except.error msg

/-- Decidable equality for `Except`, so the embedding can be evaluated on
concrete inputs. -/
instance exceptDecidableEq {ε α : Type} [DecidableEq ε] [DecidableEq α] :
    DecidableEq (Except ε α) := fun a b =>
  match a, b with
  | Except.ok x, Except.ok y =>
    if h : x = y then Decidable.isTrue (congrArg Except.ok h)
    else Decidable.isFalse (fun hh => h (Except.ok.inj hh))
  | Except.ok _, Except.error _ => Decidable.isFalse (fun hh => Except.noConfusion hh)
  | Except.error _, Except.ok _ => Decidable.isFalse (fun hh => Except.noConfusion hh)
  | Except.error e, Except.error f =>
    if h : e = f then Decidable.isTrue (congrArg Except.error h)
    else Decidable.isFalse (fun hh => h (Except.error.inj hh))

/-- Modelled from the spec: little-endian decoding of a 2-byte integer
(`U16Bytes::<LE>::get`). -/
def getU16LE (l : List Nat) : Nat := l.getD 0 0 + 256 * l.getD 1 0

/-- Modelled from the spec: little-endian decoding of the 4-byte field at
byte offset `off` of a raw record. -/
def getU32LE (l : List Nat) (off : Nat) : Nat :=
  l.getD off 0 + 256 * l.getD (off + 1) 0 + 65536 * l.getD (off + 2) 0
    + 16777216 * l.getD (off + 3) 0

/-- Modelled from the spec: the fixed size in bytes of one delay-load
descriptor record (eight 32-bit fields, per the PE/COFF layout). -/
def descriptorSize : Nat := 32

/-- Modelled from the spec: one fixed-size delay-load descriptor record,
kept as its raw bytes. -/
structure ImageDelayloadDescriptor where
  raw : List Nat
deriving Repr, DecidableEq

/-- Modelled from the spec: a descriptor is the null sentinel exactly when
its record is all-zero. -/
def ImageDelayloadDescriptor.is_null (d : ImageDelayloadDescriptor) : Bool :=
  d.raw.all (fun b => b == 0)

/-- Modelled from the spec: the `dll_name_rva` field, the address of
the imported library's name (second 32-bit field of the record). -/
def ImageDelayloadDescriptor.dll_name_rva (d : ImageDelayloadDescriptor) : Nat :=
  getU32LE d.raw 4

/-- Modelled from the spec: `Bytes::read::<pe::ImageDelayloadDescriptor>`,
reading one fixed-size descriptor record at the cursor. -/
def Bytes.read_descriptor (b : Bytes) : Option (ImageDelayloadDescriptor × Bytes) :=
  (b.read_bytes descriptorSize).map (fun p => (⟨p.1⟩, p.2))

/-- Modelled from the spec: a 32-bit thunk word (`ImageThunkData32`), a
tagged union: high bit set means ordinal (low 16 bits the ordinal number),
otherwise the low 31 bits are the address of a hint/name pair. -/
structure ImageThunkData32 where
  val : Nat
deriving Repr, DecidableEq

/-- Modelled from the spec: whether the ordinal tag bit (bit 31) is set. -/
def ImageThunkData32.is_ordinal (t : ImageThunkData32) : Bool :=
  t.val / 2147483648 % 2 == 1

/-- Modelled from the spec: the ordinal number in the low 16 bits. -/
def ImageThunkData32.ordinal (t : ImageThunkData32) : Nat := t.val % 65536

/-- Modelled from the spec: the embedded address in the low 31 bits
(mask `0x7fff_ffff`). -/
def ImageThunkData32.address (t : ImageThunkData32) : Nat := t.val % 2147483648

/-- Modelled from the spec: a resolved import entry, either an ordinal or a
hint together with a name. -/
inductive Import where
  | Ordinal : Nat → Import
  | Name : Nat → List Nat → Import
deriving Repr, DecidableEq

/-- Modelled from the spec: a cursor over a thunk array (`ImportThunkList`);
this core only positions it. -/
structure ImportThunkList where
  data : Bytes
deriving Repr, DecidableEq

/-- Error string of `descriptors()` for an out-of-range directory address. -/
def msgDescriptorAddress : String := "Invalid PE delay-load import descriptor address"

/-- Error string of `name()` for a bad name address or missing terminator. -/
def msgDescriptorName : String := "Invalid PE import descriptor name"

/-- Error string of `thunks()` for an out-of-range thunk table address. -/
def msgThunkTableAddress : String := "Invalid PE delay load import thunk table address"

/-- Error string of `hint_name()` for an out-of-range thunk address. -/
def msgThunkAddress : String := "Invalid PE delay load import thunk address"

/-- Error string of `hint_name()` for a truncated hint. -/
def msgThunkHint : String := "Missing PE delay load import thunk hint"

/-- Error string of `hint_name()` for a missing name terminator. -/
def msgThunkName : String := "Missing PE delay load import thunk name"

/-- Error string of `next()` when the buffer ends before a null record. -/
def msgNullDescriptor : String := "Missing PE null delay-load import descriptor"

/-- State of `DelayLoadImportTable` from the source: the section buffer and
the two addressing parameters, captured at construction. -/
structure DelayLoadImportTable where
  section_data : Bytes
  section_address : Nat
  import_address : Nat
deriving Repr, DecidableEq

/-- Source `DelayLoadImportTable::new`: pure data capture, no validation. -/
def DelayLoadImportTable.new (section_data : List Nat)
    (section_address import_address : Nat) : DelayLoadImportTable :=
  ⟨⟨section_data⟩, section_address, import_address⟩

/-- State of `DelayLoadDescriptorIterator` from the source: a cursor into
the section buffer. -/
structure DelayLoadDescriptorIterator where
  data : Bytes
deriving Repr, DecidableEq

/-- Source `DelayLoadImportTable::descriptors`. -/
def DelayLoadImportTable.descriptors (t : DelayLoadImportTable) :
    Except String DelayLoadDescriptorIterator :=
  let offset := wrapping_sub t.import_address t.section_address
  match read_error (t.section_data.skip offset) msgDescriptorAddress with
  | Except.ok data => Except.ok ⟨data⟩
  | Except.error e => Except.error e

/-- Source `DelayLoadImportTable::name`. -/
def DelayLoadImportTable.name (t : DelayLoadImportTable) (address : Nat) :
    Except String (List Nat) :=
  read_error
    (t.section_data.read_string_at (wrapping_sub address t.section_address))
    msgDescriptorName

/-- Source `DelayLoadImportTable::thunks`. -/
def DelayLoadImportTable.thunks (t : DelayLoadImportTable) (address : Nat) :
    Except String ImportThunkList :=
  let offset := wrapping_sub address t.section_address
  match read_error (t.section_data.skip offset) msgThunkTableAddress with
  | Except.ok data => Except.ok ⟨data⟩
  | Except.error e => Except.error e

/-- Source `DelayLoadImportTable::hint_name`. -/
def DelayLoadImportTable.hint_name (t : DelayLoadImportTable) (address : Nat) :
    Except String (Nat × List Nat) :=
  let offset := wrapping_sub address t.section_address
  match read_error (t.section_data.skip offset) msgThunkAddress with
  | Except.error e => Except.error e
  | Except.ok data =>
    match read_error (data.read_bytes 2) msgThunkHint with
    | Except.error e => Except.error e
    | Except.ok (hintBytes, dataAfterHint) =>
      match read_error dataAfterHint.read_string msgThunkName with
      | Except.error e => Except.error e
      | Except.ok (nm, _) => Except.ok (getU16LE hintBytes, nm)

/-- Source `DelayLoadImportTable::import`, named `importThunk` because
`import` is reserved in Lean: classify one already-decoded thunk word. -/
def DelayLoadImportTable.importThunk (t : DelayLoadImportTable)
    (thunk : ImageThunkData32) : Except String Import :=
  if thunk.is_ordinal then Except.ok (Import.Ordinal thunk.ordinal)
  else
    match t.hint_name thunk.address with
    | Except.ok (hint, nm) => Except.ok (Import.Name hint nm)
    | Except.error e => Except.error e

/-- Source `DelayLoadDescriptorIterator::next`; the cursor mutation is
modelled by returning the advanced iterator alongside the result. -/
def DelayLoadDescriptorIterator.next (it : DelayLoadDescriptorIterator) :
    Except String (Option ImageDelayloadDescriptor × DelayLoadDescriptorIterator) :=
  match read_error it.data.read_descriptor msgNullDescriptor with
  | Except.error e => Except.error e
  | Except.ok (d, rest) =>
    if d.is_null then Except.ok (none, ⟨rest⟩) else Except.ok (some d, ⟨rest⟩)

/-! Helper lemmas about the modelled primitives. -/

/-- Characterization of a successful null-terminated string scan: the input
splits as the returned bytes, the terminator, and the remainder, with no
zero byte among the returned bytes. -/
theorem readStringAux_some_iff (l s r : List Nat) :
    readStringAux l = some (s, r) ↔ l = s ++ 0 :: r ∧ ∀ x ∈ s, x ≠ 0 := by
  induction l generalizing s with
  | nil => cases s <;> simp [readStringAux]
  | cons b rest ih =>
    by_cases hb : b = 0
    · subst hb
      simp only [readStringAux, if_pos rfl]
      cases s with
      | nil => simp
      | cons x s' =>
        constructor
        · intro h
          exact absurd (Option.some.inj h) (by simp)
        · rintro ⟨h1, h2⟩
          rw [List.cons_append] at h1
          obtain ⟨hx, -⟩ := List.cons.inj h1
          exact absurd (h2 x (by simp)) (by simp [← hx])
    · simp only [readStringAux, if_neg hb]
      cases s with
      | nil =>
        constructor
        · intro h
          obtain ⟨⟨p1, p2⟩, -, heq⟩ := Option.map_eq_some'.mp h
          simp only [Prod.mk.injEq] at heq
          exact absurd heq.1 (by simp)
        · rintro ⟨h1, -⟩
          rw [List.nil_append] at h1
          obtain ⟨hx, -⟩ := List.cons.inj h1
          exact absurd hx hb
      | cons x s' =>
        constructor
        · intro h
          obtain ⟨⟨p1, p2⟩, hp, heq⟩ := Option.map_eq_some'.mp h
          simp only [Prod.mk.injEq, List.cons.injEq] at heq
          obtain ⟨⟨hbx, hp1⟩, hp2⟩ := heq
          have hp' : readStringAux rest = some (s', r) := by
            rw [← hp1, ← hp2]; exact hp
          obtain ⟨hrest, hs⟩ := (ih s').mp hp'
          refine ⟨by rw [List.cons_append, hrest, hbx], ?_⟩
          intro y hy
          rcases List.mem_cons.mp hy with h | h
          · subst h; exact hbx ▸ hb
          · exact hs y h
        · rintro ⟨h1, h2⟩
          rw [List.cons_append] at h1
          obtain ⟨hbx, hrest⟩ := List.cons.inj h1
          refine Option.map_eq_some'.mpr ⟨(s', r), (ih s').mpr ⟨hrest, ?_⟩, ?_⟩
          · intro y hy
            exact h2 y (List.mem_cons_of_mem x hy)
          · simp [hbx]

/-- The string scan fails exactly when no zero byte occurs in the input. -/
theorem readStringAux_none_iff (l : List Nat) :
    readStringAux l = none ↔ ∀ x ∈ l, x ≠ 0 := by
  induction l with
  | nil => simp [readStringAux]
  | cons b rest ih =>
    by_cases hb : b = 0
    · subst hb
      simp only [readStringAux, if_pos rfl]
      constructor
      · intro h
        exact absurd h (by simp)
      · intro h
        exact absurd (h 0 (by simp)) (by simp)
    · simp [readStringAux, hb, Option.map_eq_none', ih]

/-- Wraparound subtraction with the minuend below the subtrahend wraps to
`a + (2^32 - b)`. -/
theorem wrapping_sub_of_lt (a b : Nat) (ha : a < U32_MOD) (hb : b < U32_MOD)
    (hab : a < b) : wrapping_sub a b = a + (U32_MOD - b) := by
  unfold wrapping_sub
  rw [Nat.mod_eq_of_lt ha, Nat.mod_eq_of_lt hb, Nat.mod_eq_of_lt (by omega)]

/-- Wraparound subtraction with the minuend at or above the subtrahend is
plain subtraction. -/
theorem wrapping_sub_of_le (a b : Nat) (ha : a < U32_MOD) (hb : b < U32_MOD)
    (hab : b ≤ a) : wrapping_sub a b = a - b := by
  unfold wrapping_sub
  rw [Nat.mod_eq_of_lt ha, Nat.mod_eq_of_lt hb]
  have h : a + (U32_MOD - b) = (a - b) + U32_MOD := by omega
  rw [h, Nat.add_mod_right]
  exact Nat.mod_eq_of_lt (by omega)

/-- Closed-form characterization of `descriptors()`: the one addressing
check compares the wrapped offset with the buffer length. -/
theorem descriptors_eq (t : DelayLoadImportTable) :
    t.descriptors =
      if wrapping_sub t.import_address t.section_address ≤ t.section_data.data.length then
        Except.ok ⟨⟨t.section_data.data.drop (wrapping_sub t.import_address t.section_address)⟩⟩
      else Except.error msgDescriptorAddress := by
  by_cases h : wrapping_sub t.import_address t.section_address ≤ t.section_data.data.length <;>
    simp [DelayLoadImportTable.descriptors, Bytes.skip, read_error, h]

/-- Closed-form characterization of `thunks()`: same addressing check, and
the cursor is positioned at the wrapped offset. -/
theorem thunks_eq (t : DelayLoadImportTable) (address : Nat) :
    t.thunks address =
      if wrapping_sub address t.section_address ≤ t.section_data.data.length then
        Except.ok ⟨⟨t.section_data.data.drop (wrapping_sub address t.section_address)⟩⟩
      else Except.error msgThunkTableAddress := by
  by_cases h : wrapping_sub address t.section_address ≤ t.section_data.data.length <;>
    simp [DelayLoadImportTable.thunks, Bytes.skip, read_error, h]

/-- Closed-form characterization of `next()`: a full record is split off and
tested for null-ness, and a truncated record is the parse error. -/
theorem next_eq (it : DelayLoadDescriptorIterator) :
    it.next =
      if descriptorSize ≤ it.data.data.length then
        (if (it.data.data.take descriptorSize).all (fun b => b == 0) = true then
          Except.ok (none, ⟨⟨it.data.data.drop descriptorSize⟩⟩)
        else
          Except.ok (some ⟨it.data.data.take descriptorSize⟩,
            ⟨⟨it.data.data.drop descriptorSize⟩⟩))
      else Except.error msgNullDescriptor := by
  by_cases h : descriptorSize ≤ it.data.data.length
  · by_cases hz : (it.data.data.take descriptorSize).all (fun b => b == 0) = true <;>
      simp [DelayLoadDescriptorIterator.next, Bytes.read_descriptor, Bytes.read_bytes,
        read_error, ImageDelayloadDescriptor.is_null, h, hz]
  · simp [DelayLoadDescriptorIterator.next, Bytes.read_descriptor, Bytes.read_bytes,
      read_error, h]

/-- Rewrite rule for an in-range `skip`. -/
theorem Bytes.skip_of_le (b : Bytes) (o : Nat) (h : o ≤ b.data.length) :
    b.skip o = some ⟨b.data.drop o⟩ := if_pos h

/-- Rewrite rule for an out-of-range `skip`. -/
theorem Bytes.skip_of_gt (b : Bytes) (o : Nat) (h : ¬ o ≤ b.data.length) :
    b.skip o = none := if_neg h

/-- Rewrite rule for an in-range `read_bytes`. -/
theorem Bytes.read_bytes_of_le (b : Bytes) (c : Nat) (h : c ≤ b.data.length) :
    b.read_bytes c = some (b.data.take c, ⟨b.data.drop c⟩) := if_pos h

/-- Rewrite rule for an out-of-range `read_bytes`. -/
theorem Bytes.read_bytes_of_gt (b : Bytes) (c : Nat) (h : ¬ c ≤ b.data.length) :
    b.read_bytes c = none := if_neg h

/-- Characterization of a successful `name()` call: the offset is in range
and the buffer tail splits at the first zero byte. -/
theorem name_ok_iff (t : DelayLoadImportTable) (address : Nat) (s : List Nat) :
    t.name address = Except.ok s ↔
      wrapping_sub address t.section_address ≤ t.section_data.data.length
      ∧ ∃ r, t.section_data.data.drop (wrapping_sub address t.section_address)
              = s ++ 0 :: r
          ∧ ∀ x ∈ s, x ≠ 0 := by
  by_cases ho : wrapping_sub address t.section_address ≤ t.section_data.data.length
  · rcases hstr : readStringAux
        (t.section_data.data.drop (wrapping_sub address t.section_address)) with - | p
    · have hz := (readStringAux_none_iff _).mp hstr
      simp only [DelayLoadImportTable.name, Bytes.read_string_at,
        Bytes.skip_of_le _ _ ho, Option.some_bind, Bytes.read_string, hstr,
        Option.map_none', read_error]
      apply iff_of_false (by simp)
      rintro ⟨-, r, hd, -⟩
      exact hz 0 (hd ▸ List.mem_append_right s (by simp)) rfl
    · obtain ⟨s', r'⟩ := p
      have hd := (readStringAux_some_iff _ s' r').mp hstr
      simp only [DelayLoadImportTable.name, Bytes.read_string_at,
        Bytes.skip_of_le _ _ ho, Option.some_bind, Bytes.read_string, hstr,
        Option.map_some', read_error]
      constructor
      · intro h
        have h' : s' = s := Except.ok.inj h
        subst h'
        exact ⟨ho, r', hd.1, hd.2⟩
      · rintro ⟨-, r, hdr, hs⟩
        have h2 := (readStringAux_some_iff _ s r).mpr ⟨hdr, hs⟩
        rw [hstr] at h2
        have h3 : s' = s := congrArg Prod.fst (Option.some.inj h2)
        rw [h3]
  · simp only [DelayLoadImportTable.name, Bytes.read_string_at,
      Bytes.skip_of_gt _ _ ho, Option.none_bind, read_error]
    apply iff_of_false (by simp)
    rintro ⟨hcond, -⟩
    exact ho hcond

/-- Characterization of a successful `hint_name()` call: the two hint bytes
are in range and decoded little-endian, and the bytes after them split at
the first zero byte. -/
theorem hint_name_ok_iff (t : DelayLoadImportTable) (address : Nat)
    (hint : Nat) (nm : List Nat) :
    t.hint_name address = Except.ok (hint, nm) ↔
      wrapping_sub address t.section_address + 2 ≤ t.section_data.data.length
      ∧ hint = getU16LE
          ((t.section_data.data.drop (wrapping_sub address t.section_address)).take 2)
      ∧ ∃ r, t.section_data.data.drop (wrapping_sub address t.section_address + 2)
              = nm ++ 0 :: r
          ∧ ∀ x ∈ nm, x ≠ 0 := by
  by_cases ho : wrapping_sub address t.section_address ≤ t.section_data.data.length
  · by_cases h2 : 2 ≤ (t.section_data.data.drop (wrapping_sub address t.section_address)).length
    · have hdd : (t.section_data.data.drop (wrapping_sub address t.section_address)).drop 2
          = t.section_data.data.drop (wrapping_sub address t.section_address + 2) := by
        rw [List.drop_drop, Nat.add_comm]
      have ho2 : wrapping_sub address t.section_address + 2 ≤ t.section_data.data.length := by
        rw [List.length_drop] at h2
        omega
      rcases hstr : readStringAux
          (t.section_data.data.drop (wrapping_sub address t.section_address + 2)) with - | p
      · have hz := (readStringAux_none_iff _).mp hstr
        simp only [DelayLoadImportTable.hint_name, Bytes.skip_of_le _ _ ho, read_error,
          Bytes.read_bytes_of_le _ _ h2, Bytes.read_string, hdd, hstr, Option.map_none']
        apply iff_of_false (by simp)
        rintro ⟨-, -, r, hd, -⟩
        exact hz 0 (hd ▸ List.mem_append_right nm (by simp)) rfl
      · obtain ⟨s', r'⟩ := p
        have hd := (readStringAux_some_iff _ s' r').mp hstr
        simp only [DelayLoadImportTable.hint_name, Bytes.skip_of_le _ _ ho, read_error,
          Bytes.read_bytes_of_le _ _ h2, Bytes.read_string, hdd, hstr, Option.map_some']
        constructor
        · intro h
          have h' := Except.ok.inj h
          have hh : getU16LE ((t.section_data.data.drop
              (wrapping_sub address t.section_address)).take 2) = hint :=
            congrArg Prod.fst h'
          have hn : s' = nm := congrArg Prod.snd h'
          subst hn
          exact ⟨ho2, hh.symm, r', hd.1, hd.2⟩
        · rintro ⟨-, hh, r, hdr, hs⟩
          have hsome := (readStringAux_some_iff _ nm r).mpr ⟨hdr, hs⟩
          rw [hstr] at hsome
          have h3 : s' = nm := congrArg Prod.fst (Option.some.inj hsome)
          rw [h3, hh]
    · have ho2 : ¬ (wrapping_sub address t.section_address + 2
          ≤ t.section_data.data.length) := by
        rw [List.length_drop] at h2
        omega
      simp only [DelayLoadImportTable.hint_name, Bytes.skip_of_le _ _ ho, read_error,
        Bytes.read_bytes_of_gt _ _ h2]
      apply iff_of_false (by simp)
      rintro ⟨hcond, -⟩
      exact ho2 hcond
  · have ho2 : ¬ (wrapping_sub address t.section_address + 2
        ≤ t.section_data.data.length) := by omega
    simp only [DelayLoadImportTable.hint_name, Bytes.skip_of_gt _ _ ho, read_error]
    apply iff_of_false (by simp)
    rintro ⟨hcond, -⟩
    exact ho2 hcond

/-- `name()` raises its error when the wrapped offset is out of range. -/
theorem name_error_of_gt (t : DelayLoadImportTable) (address : Nat)
    (h : ¬ wrapping_sub address t.section_address ≤ t.section_data.data.length) :
    t.name address = Except.error msgDescriptorName := by
  simp only [DelayLoadImportTable.name, Bytes.read_string_at, Bytes.skip_of_gt _ _ h,
    Option.none_bind, read_error]

/-- `name()` raises its error when no terminator occurs before buffer end. -/
theorem name_error_of_no_zero (t : DelayLoadImportTable) (address : Nat)
    (ho : wrapping_sub address t.section_address ≤ t.section_data.data.length)
    (hz : ∀ x ∈ t.section_data.data.drop (wrapping_sub address t.section_address),
        x ≠ 0) :
    t.name address = Except.error msgDescriptorName := by
  have hstr := (readStringAux_none_iff _).mpr hz
  simp only [DelayLoadImportTable.name, Bytes.read_string_at, Bytes.skip_of_le _ _ ho,
    Option.some_bind, Bytes.read_string, hstr, Option.map_none', read_error]

/-- `hint_name()` raises the thunk-address error when the wrapped offset is
out of range. -/
theorem hint_name_error_of_gt (t : DelayLoadImportTable) (address : Nat)
    (h : ¬ wrapping_sub address t.section_address ≤ t.section_data.data.length) :
    t.hint_name address = Except.error msgThunkAddress := by
  simp only [DelayLoadImportTable.hint_name, Bytes.skip_of_gt _ _ h, read_error]

/-- `hint_name()` raises the missing-hint error when fewer than two bytes
remain at the offset. -/
theorem hint_name_error_of_hint (t : DelayLoadImportTable) (address : Nat)
    (ho : wrapping_sub address t.section_address ≤ t.section_data.data.length)
    (h2 : ¬ 2 ≤ (t.section_data.data.drop (wrapping_sub address t.section_address)).length) :
    t.hint_name address = Except.error msgThunkHint := by
  simp only [DelayLoadImportTable.hint_name, Bytes.skip_of_le _ _ ho, read_error,
    Bytes.read_bytes_of_gt _ _ h2]

/-- `hint_name()` raises the missing-name error when no terminator follows
the hint before buffer end. -/
theorem hint_name_error_of_no_zero (t : DelayLoadImportTable) (address : Nat)
    (ho : wrapping_sub address t.section_address ≤ t.section_data.data.length)
    (h2 : 2 ≤ (t.section_data.data.drop (wrapping_sub address t.section_address)).length)
    (hz : ∀ x ∈ t.section_data.data.drop (wrapping_sub address t.section_address + 2),
        x ≠ 0) :
    t.hint_name address = Except.error msgThunkName := by
  have hdd : (t.section_data.data.drop (wrapping_sub address t.section_address)).drop 2
      = t.section_data.data.drop (wrapping_sub address t.section_address + 2) := by
    rw [List.drop_drop, Nat.add_comm]
  have hstr := (readStringAux_none_iff _).mpr hz
  simp only [DelayLoadImportTable.hint_name, Bytes.skip_of_le _ _ ho, read_error,
    Bytes.read_bytes_of_le _ _ h2, Bytes.read_string, hdd, hstr, Option.map_none']

/-! Claim theorems. -/

/-- C1 counterexample: with the section mapped at the top of the 32-bit
address space (section address 4294967292, four data bytes) and import
directory address 0, which is numerically less than the section address,
the wrapped offset equals the buffer length rather than exceeding it, so
the bounds check accepts it and `descriptors()` succeeds instead of
rejecting the low address. -/
theorem low_address_accepted_at_boundary :
    (DelayLoadImportTable.new [1, 2, 3, 4] 4294967292 0).import_address
        < (DelayLoadImportTable.new [1, 2, 3, 4] 4294967292 0).section_address
    ∧ wrapping_sub
        (DelayLoadImportTable.new [1, 2, 3, 4] 4294967292 0).import_address
        (DelayLoadImportTable.new [1, 2, 3, 4] 4294967292 0).section_address
        = (DelayLoadImportTable.new [1, 2, 3, 4] 4294967292 0).section_data.len
    ∧ (DelayLoadImportTable.new [1, 2, 3, 4] 4294967292 0).descriptors
        = Except.ok ⟨⟨[]⟩⟩ := by
  decide

/-- C1 (amended): address-to-offset translation is wraparound (mod 2^32)
subtraction, and for every 32-bit address numerically less than the section
address, with the section fitting inside the 32-bit address space, the
wrapped offset is at least the buffer length — it strictly exceeds it, and
is rejected by the bounds check of `name()`, `thunks()`, `hint_name()` and
`descriptors()`, in every case except the single boundary input where the
address is 0 and the section ends exactly at 2^32, where the offset equals
the length. -/
theorem low_address_wraps_past_buffer (t : DelayLoadImportTable) (address : Nat)
    (ha : address < U32_MOD) (hsa : t.section_address < U32_MOD)
    (hfit : t.section_address + t.section_data.len ≤ U32_MOD)
    (hlow : address < t.section_address) :
    t.section_data.len ≤ wrapping_sub address t.section_address
    ∧ (wrapping_sub address t.section_address = t.section_data.len →
        address = 0 ∧ t.section_address + t.section_data.len = U32_MOD)
    ∧ (t.section_data.len < wrapping_sub address t.section_address →
        t.name address = Except.error msgDescriptorName
        ∧ t.thunks address = Except.error msgThunkTableAddress
        ∧ t.hint_name address = Except.error msgThunkAddress
        ∧ (t.import_address = address →
            t.descriptors = Except.error msgDescriptorAddress)) := by
  have hw := wrapping_sub_of_lt address t.section_address ha hsa hlow
  simp only [Bytes.len] at hfit ⊢
  refine ⟨?_, ?_, ?_⟩
  · rw [hw]
    omega
  · intro heq
    rw [hw] at heq
    omega
  · intro hgt
    have h' : ¬ wrapping_sub address t.section_address
        ≤ t.section_data.data.length := by omega
    refine ⟨name_error_of_gt t address h', ?_,
      hint_name_error_of_gt t address h', ?_⟩
    · rw [thunks_eq, if_neg h']
    · intro him
      rw [descriptors_eq, him, if_neg h']

/-- C1 witness: a concrete low address (5, below section address 4096 over
a 3-byte buffer) wraps to an offset past the buffer and every translating
operation rejects it with its addressing error. -/
theorem low_address_wraps_past_buffer_witness :
    (DelayLoadImportTable.new [1, 2, 3] 4096 5).section_data.len
        ≤ wrapping_sub 5 4096
    ∧ (DelayLoadImportTable.new [1, 2, 3] 4096 5).name 5
        = Except.error msgDescriptorName
    ∧ (DelayLoadImportTable.new [1, 2, 3] 4096 5).descriptors
        = Except.error msgDescriptorAddress := by
  have h := low_address_wraps_past_buffer (DelayLoadImportTable.new [1, 2, 3] 4096 5) 5
    (by decide) (by decide) (by decide) (by decide)
  exact ⟨h.1, (h.2.2 (by decide)).1, (h.2.2 (by decide)).2.2.2 (by decide)⟩

/-- C2: `next()` returns the clean end-of-sequence result exactly when a
full fixed-size record is read at the cursor and it is the all-zero null
sentinel; when fewer bytes than a full record remain, `next()` returns the
parse error, a distinct outcome. -/
theorem next_ok_none_iff_null_sentinel (it : DelayLoadDescriptorIterator) :
    ((∃ it2, it.next = Except.ok (none, it2)) ↔
      descriptorSize ≤ it.data.len
      ∧ (it.data.data.take descriptorSize).all (fun b => b == 0) = true)
    ∧ (it.data.len < descriptorSize → it.next = Except.error msgNullDescriptor) := by
  constructor
  · rw [next_eq]
    by_cases h : descriptorSize ≤ it.data.data.length
    · by_cases hz : (it.data.data.take descriptorSize).all (fun b => b == 0) = true
      · simp [Bytes.len, h, hz]
      · simp [Bytes.len, h, hz]
    · simp [Bytes.len, h]
  · intro hlt
    rw [next_eq, if_neg (by simp only [Bytes.len] at hlt; omega)]

/-- C2 witness: an all-zero full record yields the clean end of sequence,
and an empty cursor yields the parse error. -/
theorem next_ok_none_iff_null_sentinel_witness :
    (∃ it2, (DelayLoadDescriptorIterator.mk ⟨List.replicate 32 0⟩).next
        = Except.ok (none, it2))
    ∧ (DelayLoadDescriptorIterator.mk ⟨[]⟩).next
        = Except.error msgNullDescriptor := by
  constructor
  · exact (next_ok_none_iff_null_sentinel ⟨⟨List.replicate 32 0⟩⟩).1.mpr (by decide)
  · exact (next_ok_none_iff_null_sentinel ⟨⟨[]⟩⟩).2 (by decide)

/-- C3: `import(thunk)` on a thunk with the ordinal tag bit set returns the
ordinal immediately — the result does not depend on the section buffer and
is never an error — and on a thunk with the tag bit clear it delegates to
`hint_name(thunk.address())`, wrapping a success as a name import and
propagating a failure. -/
theorem importThunk_ordinal_dispatch (t : DelayLoadImportTable)
    (thunk : ImageThunkData32) :
    (thunk.is_ordinal = true →
      t.importThunk thunk = Except.ok (Import.Ordinal thunk.ordinal)
      ∧ ∀ t' : DelayLoadImportTable, t'.importThunk thunk = t.importThunk thunk)
    ∧ (thunk.is_ordinal = false →
      (∀ hint nm, t.hint_name thunk.address = Except.ok (hint, nm) →
        t.importThunk thunk = Except.ok (Import.Name hint nm))
      ∧ (∀ e, t.hint_name thunk.address = Except.error e →
        t.importThunk thunk = Except.error e)) := by
  constructor
  · intro h
    refine ⟨by simp [DelayLoadImportTable.importThunk, h], ?_⟩
    intro t'
    simp [DelayLoadImportTable.importThunk, h]
  · intro h
    constructor
    · intro hint nm hh
      simp [DelayLoadImportTable.importThunk, h, hh]
    · intro e hh
      simp [DelayLoadImportTable.importThunk, h, hh]

/-- C3 witness: the tagged thunk 0x80000007 resolves to ordinal 7 over an
empty buffer that any memory access would fail on, and the untagged thunk 4
resolves through `hint_name` to hint 42 and name Foo. -/
theorem importThunk_ordinal_dispatch_witness :
    (DelayLoadImportTable.new [] 0 0).importThunk ⟨2147483655⟩
        = Except.ok (Import.Ordinal 7)
    ∧ (DelayLoadImportTable.new [0, 0, 0, 0, 42, 0, 70, 111, 111, 0] 0 0).importThunk
        ⟨4⟩ = Except.ok (Import.Name 42 [70, 111, 111]) := by
  constructor
  · exact ((importThunk_ordinal_dispatch (DelayLoadImportTable.new [] 0 0)
      ⟨2147483655⟩).1 (by decide)).1
  · exact ((importThunk_ordinal_dispatch
      (DelayLoadImportTable.new [0, 0, 0, 0, 42, 0, 70, 111, 111, 0] 0 0) ⟨4⟩).2
      (by decide)).1 42 [70, 111, 111] (by decide)

/-- C4: `hint_name(address)` translates the address with wraparound
subtraction, fails with the thunk-address error when the offset exceeds
the buffer length, reads a 2-byte little-endian hint at the offset
(failing with the missing-hint error when truncated), then reads the
null-terminated name immediately after it (failing with the missing-name
error when no terminator occurs before buffer end). -/
theorem hint_name_reads_hint_then_name (t : DelayLoadImportTable) (address : Nat) :
    (t.section_data.len < wrapping_sub address t.section_address →
      t.hint_name address = Except.error msgThunkAddress)
    ∧ (wrapping_sub address t.section_address ≤ t.section_data.len →
        t.section_data.len - wrapping_sub address t.section_address < 2 →
        t.hint_name address = Except.error msgThunkHint)
    ∧ (∀ s r, t.section_data.data.drop (wrapping_sub address t.section_address + 2)
            = s ++ 0 :: r →
        (∀ x ∈ s, x ≠ 0) →
        wrapping_sub address t.section_address + 2 ≤ t.section_data.len →
        t.hint_name address = Except.ok
          (getU16LE ((t.section_data.data.drop
              (wrapping_sub address t.section_address)).take 2), s))
    ∧ (wrapping_sub address t.section_address + 2 ≤ t.section_data.len →
        (∀ x ∈ t.section_data.data.drop (wrapping_sub address t.section_address + 2),
            x ≠ 0) →
        t.hint_name address = Except.error msgThunkName) := by
  simp only [Bytes.len]
  refine ⟨?_, ?_, ?_, ?_⟩
  · intro h
    exact hint_name_error_of_gt t address (by omega)
  · intro ho hlt
    refine hint_name_error_of_hint t address ho ?_
    rw [List.length_drop]
    omega
  · intro s r hd hs h2
    exact (hint_name_ok_iff t address _ s).mpr ⟨h2, rfl, r, hd, hs⟩
  · intro h2 hz
    refine hint_name_error_of_no_zero t address (by omega) ?_ hz
    rw [List.length_drop]
    omega

/-- C4 witness: a buffer holding hint 42 (little-endian) followed by the
bytes of Foo and a terminator at translated offset 4 yields hint 42 and
name Foo. -/
theorem hint_name_reads_hint_then_name_witness :
    (DelayLoadImportTable.new [9, 9, 9, 9, 42, 0, 70, 111, 111, 0] 4096 0).hint_name
      4100 = Except.ok (42, [70, 111, 111]) := by
  have h := (hint_name_reads_hint_then_name
    (DelayLoadImportTable.new [9, 9, 9, 9, 42, 0, 70, 111, 111, 0] 4096 0) 4100).2.2.1
    [70, 111, 111] [] (by decide) (by decide) (by decide)
  exact h.trans (by decide)

/-- C5: `name(address)` translates the address and returns the bytes from
the translated offset up to but excluding the first zero byte, and fails
with its error when the offset is out of range or when no zero terminator
occurs before the buffer ends. -/
theorem name_reads_null_terminated (t : DelayLoadImportTable) (address : Nat) :
    (t.section_data.len < wrapping_sub address t.section_address →
      t.name address = Except.error msgDescriptorName)
    ∧ (∀ s r, t.section_data.data.drop (wrapping_sub address t.section_address)
            = s ++ 0 :: r →
        (∀ x ∈ s, x ≠ 0) →
        wrapping_sub address t.section_address ≤ t.section_data.len →
        t.name address = Except.ok s)
    ∧ (wrapping_sub address t.section_address ≤ t.section_data.len →
        (∀ x ∈ t.section_data.data.drop (wrapping_sub address t.section_address),
            x ≠ 0) →
        t.name address = Except.error msgDescriptorName) := by
  simp only [Bytes.len]
  refine ⟨?_, ?_, ?_⟩
  · intro h
    exact name_error_of_gt t address (by omega)
  · intro s r hd hs ho
    exact (name_ok_iff t address s).mpr ⟨ho, r, hd, hs⟩
  · intro ho hz
    exact name_error_of_no_zero t address ho hz

/-- C5 witness: the buffer KERNEL32.dll followed by a terminator at the
translated offset yields exactly the bytes before the terminator. -/
theorem name_reads_null_terminated_witness :
    (DelayLoadImportTable.new [75, 69, 82, 78, 69, 76, 51, 50, 46, 100, 108, 108, 0]
      4096 0).name 4096 = Except.ok [75, 69, 82, 78, 69, 76, 51, 50, 46, 100, 108, 108] :=
  (name_reads_null_terminated
    (DelayLoadImportTable.new [75, 69, 82, 78, 69, 76, 51, 50, 46, 100, 108, 108, 0]
      4096 0) 4096).2.1
    [75, 69, 82, 78, 69, 76, 51, 50, 46, 100, 108, 108] [] (by decide) (by decide)
    (by decide)

/-- C6: the constructor captures the section buffer and the two addresses
verbatim and performs no validation, while `descriptors()` performs the one
addressing check lazily: it fails with the addressing error exactly when
the translated offset exceeds the buffer length and otherwise returns an
iterator positioned at that offset. -/
theorem new_captures_descriptors_validates (section_data : List Nat)
    (section_address import_address : Nat) :
    (DelayLoadImportTable.new section_data section_address import_address).section_data
        = ⟨section_data⟩
    ∧ (DelayLoadImportTable.new section_data section_address
        import_address).section_address = section_address
    ∧ (DelayLoadImportTable.new section_data section_address
        import_address).import_address = import_address
    ∧ (section_data.length < wrapping_sub import_address section_address →
        (DelayLoadImportTable.new section_data section_address
          import_address).descriptors = Except.error msgDescriptorAddress)
    ∧ (wrapping_sub import_address section_address ≤ section_data.length →
        (DelayLoadImportTable.new section_data section_address
          import_address).descriptors
          = Except.ok ⟨⟨section_data.drop (wrapping_sub import_address section_address)⟩⟩) := by
  refine ⟨rfl, rfl, rfl, ?_, ?_⟩
  · intro h
    rw [descriptors_eq]
    exact if_neg (by simp only [DelayLoadImportTable.new]; omega)
  · intro h
    rw [descriptors_eq]
    exact if_pos (by simp only [DelayLoadImportTable.new]; omega)

/-- C6 witness: an import address translating past a one-byte buffer makes
`descriptors()` fail, and one translating inside a two-byte buffer makes it
succeed positioned at the offset. -/
theorem new_captures_descriptors_validates_witness :
    (DelayLoadImportTable.new [7] 0 5).descriptors
        = Except.error msgDescriptorAddress
    ∧ (DelayLoadImportTable.new [7, 8] 0 1).descriptors = Except.ok ⟨⟨[8]⟩⟩ := by
  constructor
  · exact (new_captures_descriptors_validates [7] 0 5).2.2.2.1 (by decide)
  · have h := (new_captures_descriptors_validates [7, 8] 0 1).2.2.2.2 (by decide)
    exact h.trans (by decide)

/-- C7: a successful result certifies that every byte consumed lies within
the supplied buffer: successful `descriptors`/`thunks` calls had their
offset within bounds, a successful `next` consumed exactly one full record
that was available, and successful `name`/`hint_name` calls found the
terminator strictly inside the buffer — so a truncated buffer can never
produce an out-of-range or garbage success, only a typed parse error. -/
theorem success_implies_in_bounds (t : DelayLoadImportTable) (address : Nat)
    (it : DelayLoadDescriptorIterator) :
    (∀ it2, t.descriptors = Except.ok it2 →
        wrapping_sub t.import_address t.section_address ≤ t.section_data.len
        ∧ it2.data.len
            = t.section_data.len - wrapping_sub t.import_address t.section_address)
    ∧ (∀ d it2, it.next = Except.ok (d, it2) →
        descriptorSize ≤ it.data.len ∧ it2.data.len = it.data.len - descriptorSize)
    ∧ (∀ tl, t.thunks address = Except.ok tl →
        wrapping_sub address t.section_address ≤ t.section_data.len
        ∧ tl.data.len
            = t.section_data.len - wrapping_sub address t.section_address)
    ∧ (∀ s, t.name address = Except.ok s →
        wrapping_sub address t.section_address + s.length + 1 ≤ t.section_data.len)
    ∧ (∀ hint nm, t.hint_name address = Except.ok (hint, nm) →
        wrapping_sub address t.section_address + 2 + nm.length + 1
          ≤ t.section_data.len) := by
  simp only [Bytes.len]
  refine ⟨?_, ?_, ?_, ?_, ?_⟩
  · intro it2 h
    rw [descriptors_eq] at h
    by_cases ho : wrapping_sub t.import_address t.section_address
        ≤ t.section_data.data.length
    · rw [if_pos ho] at h
      have h2 := Except.ok.inj h
      refine ⟨ho, ?_⟩
      rw [← h2]
      exact List.length_drop _ _
    · rw [if_neg ho] at h
      exact absurd h (by simp)
  · intro d it2 h
    rw [next_eq] at h
    by_cases ho : descriptorSize ≤ it.data.data.length
    · rw [if_pos ho] at h
      refine ⟨ho, ?_⟩
      by_cases hz : (it.data.data.take descriptorSize).all (fun b => b == 0) = true
      · rw [if_pos hz] at h
        have h2 := (Prod.mk.inj (Except.ok.inj h)).2
        rw [← h2]
        exact List.length_drop _ _
      · rw [if_neg hz] at h
        have h2 := (Prod.mk.inj (Except.ok.inj h)).2
        rw [← h2]
        exact List.length_drop _ _
    · rw [if_neg ho] at h
      exact absurd h (by simp)
  · intro tl h
    rw [thunks_eq] at h
    by_cases ho : wrapping_sub address t.section_address ≤ t.section_data.data.length
    · rw [if_pos ho] at h
      have h2 := Except.ok.inj h
      refine ⟨ho, ?_⟩
      rw [← h2]
      exact List.length_drop _ _
    · rw [if_neg ho] at h
      exact absurd h (by simp)
  · intro s h
    obtain ⟨ho, r, hd, -⟩ := (name_ok_iff t address s).mp h
    have hlen := congrArg List.length hd
    rw [List.length_drop, List.length_append, List.length_cons] at hlen
    omega
  · intro hint nm h
    obtain ⟨ho, -, r, hd, -⟩ := (hint_name_ok_iff t address hint nm).mp h
    have hlen := congrArg List.length hd
    rw [List.length_drop, List.length_append, List.length_cons] at hlen
    omega

/-- C7 witness: on a concrete four-byte section, a successful `name` call
certifies the terminator lies within the buffer. -/
theorem success_implies_in_bounds_witness :
    wrapping_sub 4096 4096 + [5, 6].length + 1
        ≤ (DelayLoadImportTable.new [5, 6, 0, 9] 4096 4096).section_data.len :=
  (success_implies_in_bounds (DelayLoadImportTable.new [5, 6, 0, 9] 4096 4096) 4096
    ⟨⟨[]⟩⟩).2.2.2.1 [5, 6] (by decide)

/-- Concrete byte content of the library name KERNEL32.dll. -/
def kernel32Name : List Nat := [75, 69, 82, 78, 69, 76, 51, 50, 46, 100, 108, 108]

/-- A hand-built non-null descriptor record whose dll_name_rva field
(little-endian bytes 4..7) holds address 4160. -/
def sampleDescriptor : List Nat := [0, 0, 0, 0, 64, 16, 0, 0] ++ List.replicate 24 0

/-- A hand-built section: one non-null descriptor, the all-zero null
descriptor, then the library name bytes with their terminator at offset 64
(address 4160 when the section is mapped at 4096). -/
def sampleSection : List Nat :=
  sampleDescriptor ++ List.replicate 32 0 ++ kernel32Name ++ [0]

/-- The import table over the hand-built section, with the descriptor table
at the section start. -/
def sampleTable : DelayLoadImportTable :=
  DelayLoadImportTable.new sampleSection 4096 4096

/-- C8: on the hand-built section holding one descriptor whose name field
points at the bytes KERNEL32.dll, followed by the null descriptor,
`descriptors()` succeeds, the first `next()` yields that one descriptor,
the second `next()` yields the clean end of sequence, and `name` at the
descriptor's name address returns exactly the bytes KERNEL32.dll. -/
theorem roundtrip_kernel32 :
    sampleTable.descriptors = Except.ok ⟨⟨sampleSection⟩⟩
    ∧ (DelayLoadDescriptorIterator.mk ⟨sampleSection⟩).next
        = Except.ok (some ⟨sampleDescriptor⟩,
            ⟨⟨List.replicate 32 0 ++ kernel32Name ++ [0]⟩⟩)
    ∧ ImageDelayloadDescriptor.dll_name_rva ⟨sampleDescriptor⟩ = 4160
    ∧ (DelayLoadDescriptorIterator.mk ⟨List.replicate 32 0 ++ kernel32Name ++ [0]⟩).next
        = Except.ok (none, ⟨⟨kernel32Name ++ [0]⟩⟩)
    ∧ sampleTable.name 4160 = Except.ok kernel32Name := by
  decide

/-- C9: `name` and `hint_name` are referentially transparent: the result is
a function of the immutable section buffer and section address alone
(the import address is not even read), so two calls with the same address on the
same unmodified handle return identical results and leave the handle's
fields untouched. -/
theorem name_hint_name_deterministic (t t' : DelayLoadImportTable) (address : Nat)
    (hdata : t.section_data = t'.section_data)
    (haddr : t.section_address = t'.section_address) :
    t.name address = t'.name address
    ∧ t.hint_name address = t'.hint_name address := by
  obtain ⟨d, sa, ia⟩ := t
  obtain ⟨d', sa', ia'⟩ := t'
  cases hdata
  cases haddr
  exact ⟨rfl, rfl⟩

/-- C9 witness: two handles over the same buffer and section address but
different import addresses (two calls at different moments) agree on `name`
and `hint_name` at the same address. -/
theorem name_hint_name_deterministic_witness :
    (DelayLoadImportTable.new [0] 7 1).name 7
        = (DelayLoadImportTable.new [0] 7 2).name 7
    ∧ (DelayLoadImportTable.new [0] 7 1).hint_name 7
        = (DelayLoadImportTable.new [0] 7 2).hint_name 7 :=
  name_hint_name_deterministic (DelayLoadImportTable.new [0] 7 1)
    (DelayLoadImportTable.new [0] 7 2) 7 rfl rfl

/-- C10: when the wrapped offset equals the buffer length exactly, the
addressing checks pass: `descriptors()` and `thunks()` succeed with an
empty remainder and `hint_name()` passes its skip, the failure being
deferred to the first subsequent read — `next()` then raises the
missing-null-descriptor error and `hint_name()` the missing-hint error —
while the addressing errors arise exactly when the offset strictly exceeds
the buffer length. -/
theorem boundary_offset_equals_length (t : DelayLoadImportTable) (address : Nat) :
    (wrapping_sub t.import_address t.section_address = t.section_data.len →
      t.descriptors = Except.ok ⟨⟨[]⟩⟩
      ∧ (DelayLoadDescriptorIterator.mk ⟨[]⟩).next
          = Except.error msgNullDescriptor)
    ∧ (wrapping_sub address t.section_address = t.section_data.len →
      t.thunks address = Except.ok ⟨⟨[]⟩⟩
      ∧ t.hint_name address = Except.error msgThunkHint)
    ∧ (t.descriptors = Except.error msgDescriptorAddress ↔
        t.section_data.len < wrapping_sub t.import_address t.section_address)
    ∧ (t.thunks address = Except.error msgThunkTableAddress ↔
        t.section_data.len < wrapping_sub address t.section_address)
    ∧ (t.hint_name address = Except.error msgThunkAddress ↔
        t.section_data.len < wrapping_sub address t.section_address) := by
  simp only [Bytes.len]
  refine ⟨?_, ?_, ?_, ?_, ?_⟩
  · intro heq
    constructor
    · rw [descriptors_eq, if_pos (by omega), heq, List.drop_length]
    · decide
  · intro heq
    constructor
    · rw [thunks_eq, if_pos (by omega), heq, List.drop_length]
    · refine hint_name_error_of_hint t address (by omega) ?_
      rw [List.length_drop]
      omega
  · rw [descriptors_eq]
    by_cases ho : wrapping_sub t.import_address t.section_address
        ≤ t.section_data.data.length
    · rw [if_pos ho]
      constructor
      · intro h
        exact absurd h (by simp)
      · intro h
        omega
    · rw [if_neg ho]
      constructor
      · intro h
        omega
      · intro h
        rfl
  · rw [thunks_eq]
    by_cases ho : wrapping_sub address t.section_address ≤ t.section_data.data.length
    · rw [if_pos ho]
      constructor
      · intro h
        exact absurd h (by simp)
      · intro h
        omega
    · rw [if_neg ho]
      constructor
      · intro h
        omega
      · intro h
        rfl
  · by_cases ho : wrapping_sub address t.section_address ≤ t.section_data.data.length
    · constructor
      · intro h
        by_cases h2 : 2 ≤ (t.section_data.data.drop
            (wrapping_sub address t.section_address)).length
        · rcases hstr : readStringAux (t.section_data.data.drop
              (wrapping_sub address t.section_address + 2)) with - | p
          · have hz := (readStringAux_none_iff _).mp hstr
            rw [hint_name_error_of_no_zero t address ho h2 hz] at h
            exact absurd (Except.error.inj h) (by decide)
          · obtain ⟨s', r'⟩ := p
            have hd := (readStringAux_some_iff _ s' r').mp hstr
            rw [(hint_name_ok_iff t address
              (getU16LE ((t.section_data.data.drop
                (wrapping_sub address t.section_address)).take 2)) s').mpr
              ⟨by rw [List.length_drop] at h2; omega, rfl, r', hd.1, hd.2⟩] at h
            exact absurd h (by simp)
        · rw [hint_name_error_of_hint t address ho h2] at h
          exact absurd (Except.error.inj h) (by decide)
      · intro h
        omega
    · constructor
      · intro h
        omega
      · intro h
        exact hint_name_error_of_gt t address ho

/-- C10 witness: a two-byte section with both addresses translating to
offset 2 (the exact buffer length): `descriptors()` and `thunks()` succeed
with an empty remainder, the following `next()` raises the parse error,
and `hint_name()` raises the missing-hint error. -/
theorem boundary_offset_equals_length_witness :
    (DelayLoadImportTable.new [1, 2] 4096 4098).descriptors = Except.ok ⟨⟨[]⟩⟩
    ∧ (DelayLoadImportTable.new [1, 2] 4096 4098).thunks 4098 = Except.ok ⟨⟨[]⟩⟩
    ∧ (DelayLoadImportTable.new [1, 2] 4096 4098).hint_name 4098
        = Except.error msgThunkHint := by
  have h := boundary_offset_equals_length (DelayLoadImportTable.new [1, 2] 4096 4098)
    4098
  exact ⟨(h.1 (by decide)).1, (h.2.1 (by decide)).1, (h.2.1 (by decide)).2⟩
